import Mathlib

/-!
# Verification of the agentx conversation core

Shallow embedding of the protocol-driven conversation code:
* the ACP schema data model (`ContentBlock`, `ToolCall`, `SessionUpdate`, …),
* the diff engine and summary aggregator of `src/components/diff_summary.rs`,
* the tool-call view mutations of `src/components/tool_call_item.rs`,
* the kind/status ingestion mapping of `src/conversation.rs`,
* the per-event rendering of `src/conversation_acp.rs`.

Machine integers (`usize` counters) are modelled as `Nat`; the counters only
ever grow by 1 per diff line, so overflow is unreachable for any input the
program can hold in memory and is not modelled.
-/

namespace AgentX

/-! ## ACP schema data model (agent_client_protocol_schema) -/

/-- `TextContent` of the ACP schema: a plain text block. -/
structure TextContent where
  text : String
deriving DecidableEq

/-- `ImageContent` of the ACP schema. -/
structure ImageContent where
  data : String
  mime_type : String
deriving DecidableEq

/-- `AudioContent` of the ACP schema. -/
structure AudioContent where
  data : String
  mime_type : String
deriving DecidableEq

/-- `ResourceLink` of the ACP schema. -/
structure ResourceLink where
  name : String
  uri : String
  mime_type : Option String
deriving DecidableEq

/-- `TextResourceContents` of the ACP schema. -/
structure TextResourceContents where
  uri : String
  mime_type : Option String
  text : String
deriving DecidableEq

/-- `BlobResourceContents` of the ACP schema. -/
structure BlobResourceContents where
  uri : String
  mime_type : Option String
  blob : String
deriving DecidableEq

/-- `EmbeddedResourceResource` of the ACP schema: text or blob resource. -/
inductive EmbeddedResourceResource where
  | TextResourceContents (r : AgentX.TextResourceContents)
  | BlobResourceContents (r : AgentX.BlobResourceContents)
deriving DecidableEq

/-- `EmbeddedResource` of the ACP schema. -/
structure EmbeddedResource where
  resource : EmbeddedResourceResource
deriving DecidableEq

/-- `ContentBlock` of the ACP schema: one unit of message content. -/
inductive ContentBlock where
  | Text (c : TextContent)
  | Image (c : ImageContent)
  | Audio (c : AudioContent)
  | ResourceLink (c : AgentX.ResourceLink)
  | Resource (c : EmbeddedResource)
deriving DecidableEq

/-- `ContentChunk` of the ACP schema; `meta` is an opaque extension blob. -/
structure ContentChunk where
  content : ContentBlock
  meta : Option String
deriving DecidableEq

/-- `ToolKind` of the ACP schema. -/
inductive ToolKind where
  | Read
  | Edit
  | Delete
  | Move
  | Search
  | Execute
  | Think
  | Fetch
  | SwitchMode
  | Other
deriving DecidableEq

/-- `ToolCallStatus` of the ACP schema. -/
inductive ToolCallStatus where
  | Pending
  | InProgress
  | Completed
  | Failed
deriving DecidableEq

/-- The `diff` payload of a `ToolCallContent`: `{path, old_text?, new_text}`.
`PathBuf` is modelled as a `String`. -/
structure DiffContent where
  path : String
  old_text : Option String
  new_text : String
deriving DecidableEq

/-- `ToolCallContent` of the ACP schema. -/
inductive ToolCallContent where
  | Content (content : ContentBlock)
  | Diff (diff : DiffContent)
  | Terminal (terminal_id : String)
deriving DecidableEq

/-- `ToolCall` of the ACP schema, restricted to the fields the panels read. -/
structure ToolCall where
  tool_call_id : String
  title : String
  kind : ToolKind
  status : ToolCallStatus
  content : List ToolCallContent
deriving DecidableEq

/-- `ToolCallUpdate` of the ACP schema: partial fields keyed by id.  Only
`tool_call_id` is read by `conversation_acp.rs`; the optional fields carry the
update payload. -/
structure ToolCallUpdate where
  tool_call_id : String
  status : Option ToolCallStatus
  title : Option String
  content : Option (List ToolCallContent)
deriving DecidableEq

/-- `PlanEntryPriority` of the ACP schema. -/
inductive PlanEntryPriority where
  | High
  | Medium
  | Low
deriving DecidableEq

/-- `PlanEntryStatus` of the ACP schema. -/
inductive PlanEntryStatus where
  | Pending
  | InProgress
  | Completed
deriving DecidableEq

/-- `PlanEntry` of the ACP schema. -/
structure PlanEntry where
  content : String
  priority : PlanEntryPriority
  status : PlanEntryStatus
deriving DecidableEq

/-- `Plan` of the ACP schema. -/
structure Plan where
  entries : List PlanEntry
deriving DecidableEq

/-- `AvailableCommandsUpdate` of the ACP schema; the renderer only reads the
number of available commands, but the list is kept. -/
structure AvailableCommandsUpdate where
  available_commands : List String
deriving DecidableEq

/-- `CurrentModeUpdate` of the ACP schema. -/
structure CurrentModeUpdate where
  current_mode_id : String
deriving DecidableEq

/-- `SessionUpdate` of the ACP schema, the input alphabet of the panel.
`Unknown` models any variant of the non-exhaustive protocol enum that the
panel's `match` does not list; it is consumed by the catch-all arm. -/
inductive SessionUpdate where
  | UserMessageChunk (chunk : ContentChunk)
  | AgentMessageChunk (chunk : ContentChunk)
  | AgentThoughtChunk (chunk : ContentChunk)
  | ToolCall (tool_call : AgentX.ToolCall)
  | ToolCallUpdate (u : AgentX.ToolCallUpdate)
  | Plan (plan : AgentX.Plan)
  | AvailableCommandsUpdate (u : AgentX.AvailableCommandsUpdate)
  | CurrentModeUpdate (u : AgentX.CurrentModeUpdate)
  | Unknown
deriving DecidableEq

/-! ## DiffEngine (src/components/diff_summary.rs) -/

/-- One tagged change of the line diff, `similar::ChangeTag` together with the
line it tags. -/
inductive Change where
  | Insert (line : String)
  | Delete (line : String)
  | Equal (line : String)
deriving DecidableEq

/-- Whether a change is an `Insert` (the `ChangeTag::Insert` arm of the
counting loop in `FileChangeStats::from_diff`). -/
def Change.isInsert : Change → Bool
  | .Insert _ => true
  | _ => false

/-- Whether a change is a `Delete` (the `ChangeTag::Delete` arm of the
counting loop in `FileChangeStats::from_diff`). -/
def Change.isDelete : Change → Bool
  | .Delete _ => true
  | _ => false

/-- Splits a character list into lines, each line keeping its terminating
newline (the tokenization used by line-based diffing: one token per
newline-terminated segment, plus a final unterminated segment if any).
The empty input has no lines; a trailing newline adds no extra empty line. -/
def splitLinesKeepEnds : List Char → List (List Char)
  | [] => []
  | c :: cs =>
    if c = '\n' then [c] :: splitLinesKeepEnds cs
    else
      match splitLinesKeepEnds cs with
      | [] => [[c]]
      | l :: ls => (c :: l) :: ls

/-- The lines of a string, keeping line endings. -/
def linesKeepEnds (s : String) : List String :=
  (splitLinesKeepEnds s.data).map (fun cs => String.mk cs)

/-- Modelled from the spec: Rust's `str::lines().count()` used by
`FileChangeStats::from_diff` for new files (`str::lines` is standard-library
code outside this repository).  Per §4.1, the count is the number of
newline-delimited segments, a trailing newline creating no extra empty
segment; this is exactly one count per newline-terminated or final
unterminated segment. -/
def rust_line_count (s : String) : Nat :=
  (linesKeepEnds s).length

/-- Length of a longest common subsequence of two token lists; drives the
branch choice of the line diff. -/
def lcsLen : List String → List String → Nat
  | [], _ => 0
  | _ :: _, [] => 0
  | x :: xs, y :: ys =>
    if x = y then lcsLen xs ys + 1
    else max (lcsLen xs (y :: ys)) (lcsLen (x :: xs) ys)
termination_by l₁ l₂ => l₁.length + l₂.length

/-- Modelled from the spec: the external line diff
(`similar::TextDiff::from_lines`, a dependency outside this repository),
specified in §4.1 as a deterministic, classic LCS-based line diff emitting
`Insert`/`Delete`/`Equal` tags.  Equal heads are consumed as `Equal`;
otherwise the branch keeping the longer common subsequence is taken,
preferring `Delete` on ties. -/
def diffLines : List String → List String → List Change
  | [], ys => ys.map Change.Insert
  | x :: xs, [] => Change.Delete x :: xs.map Change.Delete
  | x :: xs, y :: ys =>
    if x = y then Change.Equal x :: diffLines xs ys
    else if lcsLen (x :: xs) ys ≤ lcsLen xs (y :: ys) then
      Change.Delete x :: diffLines xs (y :: ys)
    else
      Change.Insert y :: diffLines (x :: xs) ys
termination_by l₁ l₂ => l₁.length + l₂.length

/-- `FileChangeStats` of `src/components/diff_summary.rs`; `usize` counters
are `Nat`, `PathBuf` is `String`. -/
structure FileChangeStats where
  path : String
  additions : Nat
  deletions : Nat
  is_new_file : Bool
deriving DecidableEq

/-- `FileChangeStats::from_diff`: with an old text, count the `Insert` and
`Delete` tags of the line diff; without one, the file is new and every line
of the new text is an addition. -/
def FileChangeStats.from_diff (path : String) (old_text : Option String)
    (new_text : String) : FileChangeStats :=
  match old_text with
  | some old =>
    let diff := diffLines (linesKeepEnds old) (linesKeepEnds new_text)
    { path := path
      additions := diff.countP Change.isInsert
      deletions := diff.countP Change.isDelete
      is_new_file := false }
  | none =>
    { path := path
      additions := rust_line_count new_text
      deletions := 0
      is_new_file := true }

/-- `FileChangeStats::total_changes`. -/
def FileChangeStats.total_changes (s : FileChangeStats) : Nat :=
  s.additions + s.deletions

/-! ## DiffSummary aggregator (src/components/diff_summary.rs)

`DiffSummaryData.files` is a `HashMap<PathBuf, FileChangeStats>` in the
source.  It is modelled as an association list with unique keys, read as the
map's contents laid out in one value-iteration order.  The real `HashMap`
iterates in an arbitrary, seed-dependent order that is fixed for a given map
instance but bears no relation to insertion order, so every ordering of the
same unique-key bindings is an admissible state of the same map; theorems
about iteration-order-sensitive behaviour therefore quantify over all
orderings (all `DiffSummaryData` values), and none may rely on which
ordering the running program exhibits. -/

/-- `DiffSummaryData` of `src/components/diff_summary.rs`. -/
structure DiffSummaryData where
  files : List (String × FileChangeStats)
deriving DecidableEq

/-- `HashMap::insert` on the association-list model: overwrite the binding
of an existing key in place, otherwise append the new binding.  Appending
lays the list out in insertion order — one admissible iteration order among
many, chosen as the canonical representative when a map is built; it is not
a guarantee of the program, whose `HashMap` may iterate the same bindings
in any order. -/
def insertFile : List (String × FileChangeStats) → String → FileChangeStats →
    List (String × FileChangeStats)
  | [], k, v => [(k, v)]
  | (k₀, v₀) :: rest, k, v =>
    if k₀ = k then (k, v) :: rest
    else (k₀, v₀) :: insertFile rest k v

/-- `DiffSummaryData::new`. -/
def DiffSummaryData.new : DiffSummaryData :=
  { files := [] }

/-- `DiffSummaryData::from_tool_calls`: scan every `Diff` content item of
every tool call, diff it, and insert the stats keyed by path. -/
def DiffSummaryData.from_tool_calls (tool_calls : List ToolCall) :
    DiffSummaryData :=
  { files :=
      tool_calls.foldl
        (fun acc tc =>
          tc.content.foldl
            (fun acc c =>
              match c with
              | .Diff d =>
                insertFile acc d.path
                  (FileChangeStats.from_diff d.path d.old_text d.new_text)
              | _ => acc)
            acc)
        [] }

/-- `DiffSummaryData::total_files`. -/
def DiffSummaryData.total_files (d : DiffSummaryData) : Nat :=
  d.files.length

/-- `DiffSummaryData::total_additions`. -/
def DiffSummaryData.total_additions (d : DiffSummaryData) : Nat :=
  (d.files.map (fun p => p.2.additions)).sum

/-- `DiffSummaryData::total_deletions`. -/
def DiffSummaryData.total_deletions (d : DiffSummaryData) : Nat :=
  (d.files.map (fun p => p.2.deletions)).sum

/-- Stable insertion into a descending run: the new element goes in front of
the first element whose total does not exceed its own, so among equal totals
it stays before later-inserted peers. -/
def insertByTotal (x : FileChangeStats) :
    List FileChangeStats → List FileChangeStats
  | [] => [x]
  | y :: ys =>
    if y.total_changes ≤ x.total_changes then x :: y :: ys
    else y :: insertByTotal x ys

/-- Stable sort by `total_changes` descending, modelling
`files.sort_by(|a, b| b.total_changes().cmp(&a.total_changes()))`
(Rust's `sort_by` is a stable sort, so it is determined up to extensional
equality by the comparator and the input order). -/
def sortByTotalDesc : List FileChangeStats → List FileChangeStats
  | [] => []
  | x :: xs => insertByTotal x (sortByTotalDesc xs)

/-- `DiffSummaryData::sorted_files`: the stored stats, sorted by total
changes descending. -/
def DiffSummaryData.sorted_files (d : DiffSummaryData) :
    List FileChangeStats :=
  sortByTotalDesc (d.files.map (fun p => p.2))

/-- `DiffSummaryData::has_changes`. -/
def DiffSummaryData.has_changes (d : DiffSummaryData) : Bool :=
  !d.files.isEmpty

/-! ## ToolCallItemView (src/components/tool_call_item.rs)

The GPUI `Entity<ToolCall>` indirection is flattened: the view state is the
owned `ToolCall` plus the `open` flag (named `open_state` here because `open`
is a Lean keyword).  `cx.notify()` calls are re-render notifications with no
effect on this state. -/

/-- The state of `ToolCallItemView`. -/
structure ToolCallItemView where
  tool_call : ToolCall
  open_state : Bool
deriving DecidableEq

/-- `ToolCallItemView::new`: wraps a tool call, initially closed. -/
def ToolCallItemView.new (tool_call : ToolCall) : ToolCallItemView :=
  { tool_call := tool_call, open_state := false }

/-- `ToolCallItemView::update_status`: `tc.status = status`. -/
def ToolCallItemView.update_status (v : ToolCallItemView)
    (status : ToolCallStatus) : ToolCallItemView :=
  { v with tool_call := { v.tool_call with status := status } }

/-- `ToolCallItemView::add_content`: `tc.content.push(content)`. -/
def ToolCallItemView.add_content (v : ToolCallItemView)
    (content : ToolCallContent) : ToolCallItemView :=
  { v with tool_call :=
      { v.tool_call with content := v.tool_call.content ++ [content] } }

/-- `ToolCallItemView::set_content`: `tc.content = content`, a full
overwrite of the content list. -/
def ToolCallItemView.set_content (v : ToolCallItemView)
    (content : List ToolCallContent) : ToolCallItemView :=
  { v with tool_call := { v.tool_call with content := content } }

/-! ## Tool-call ingestion mapping (src/conversation.rs) -/

/-- Modelled from the spec for the Unicode fringe: Rust's
`str::to_lowercase` (standard-library code outside this repository), used by
`ConversationPanel::map_tool_call`; per §6 it folds case on ingestion.  The
kind/status vocabulary is ASCII, for which `Char.toLower` agrees with Rust. -/
def to_lowercase (s : String) : String :=
  String.mk (s.data.map Char.toLower)

/-- The kind match of `ConversationPanel::map_tool_call`, applied to the
already-lowercased string: nine named kinds, every other string is
`ToolKind::Other`. -/
def tool_kind_of_lower (l : String) : ToolKind :=
  if l = "read" then ToolKind.Read
  else if l = "edit" then ToolKind.Edit
  else if l = "delete" then ToolKind.Delete
  else if l = "move" then ToolKind.Move
  else if l = "search" then ToolKind.Search
  else if l = "execute" then ToolKind.Execute
  else if l = "think" then ToolKind.Think
  else if l = "fetch" then ToolKind.Fetch
  else if l = "switch_mode" then ToolKind.SwitchMode
  else ToolKind.Other

/-- The status match of `ConversationPanel::map_tool_call`, applied to the
already-lowercased string: the catch-all arm yields `Pending`. -/
def tool_status_of_lower (l : String) : ToolCallStatus :=
  if l = "pending" then ToolCallStatus.Pending
  else if l = "in_progress" ∨ l = "inprogress" then ToolCallStatus.InProgress
  else if l = "completed" then ToolCallStatus.Completed
  else if l = "failed" then ToolCallStatus.Failed
  else ToolCallStatus.Pending

/-- The kind computation of `ConversationPanel::map_tool_call`:
`kind.as_deref().and_then(|k| match k.to_lowercase() …).unwrap_or(Other)`.
Every match arm returns `Some`, so `None` only arises from an absent kind. -/
def map_tool_call_kind (kind : Option String) : ToolKind :=
  match kind with
  | none => ToolKind.Other
  | some k => tool_kind_of_lower (to_lowercase k)

/-- The status computation of `ConversationPanel::map_tool_call`:
`status.as_deref().and_then(|s| match s.to_lowercase() …).unwrap_or(Pending)`. -/
def map_tool_call_status (status : Option String) : ToolCallStatus :=
  match status with
  | none => ToolCallStatus.Pending
  | some s => tool_status_of_lower (to_lowercase s)

/-- `ToolCallDataSchema` as consumed by `ConversationPanel::map_tool_call`
(`kind` and `status` are optional wire strings; content items are plain
text). -/
structure ToolCallDataSchema where
  tool_call_id : String
  title : String
  kind : Option String
  status : Option String
  content : List String
deriving DecidableEq

/-- `ToolCallItemSchema` (`open` renamed `open_state`). -/
structure ToolCallItemSchema where
  id : String
  data : ToolCallDataSchema
  open_state : Bool
deriving DecidableEq

/-- `ConversationPanel::map_tool_call`: build the ACP `ToolCall` from the
wire schema, mapping kind and status case-insensitively with fallbacks, and
wrapping each text content item in a `Content` block. -/
def map_tool_call (item : ToolCallItemSchema) : ToolCall :=
  { tool_call_id := item.data.tool_call_id
    title := item.data.title
    kind := map_tool_call_kind item.data.kind
    status := map_tool_call_status item.data.status
    content := item.data.content.map
      (fun t => ToolCallContent.Content (ContentBlock.Text { text := t })) }

/-! ## ACP conversation panel rendering (src/conversation_acp.rs)

`ConversationPanelAcp` stores the raw `Vec<SessionUpdate>` and its `render`
maps every update, with its index, through `render_session_update` to one
element.  `RenderedItem` records the data each match arm embeds into the
element it builds. -/

/-- `ConversationPanelAcp::extract_text_from_content`.  The Rust code slices
the first `min(len, 200)` bytes of an embedded text resource; the model
takes 200 characters (the truncation width is not load-bearing for any
claim). -/
def extract_text_from_content (content : ContentBlock) : String :=
  match content with
  | .Text text_content => text_content.text
  | .Image img => "[Image: " ++ img.mime_type ++ "]"
  | .Audio audio => "[Audio: " ++ audio.mime_type ++ "]"
  | .ResourceLink link => "[Resource: " ++ link.name ++ "]"
  | .Resource resource =>
    match resource.resource with
    | .TextResourceContents text_res =>
      "[Resource: " ++ text_res.uri ++ "]\n" ++ text_res.text.take 200
    | .BlobResourceContents blob_res =>
      "[Binary Resource: " ++ blob_res.uri ++ "]"

/-- One rendered transcript element of `ConversationPanelAcp`, recording the
data the corresponding `render_session_update` arm puts into the element:
the user/agent message views carry the element-id index, the session id
`"default-session"` and the wrapped content; the tool-call view shows title
and status; a tool-call update renders its own note showing the id; plans,
command counts, mode ids and the unknown placeholder likewise. -/
inductive RenderedItem where
  | userMessage (index : Nat) (session_id : String) (contents : List ContentBlock)
  | agentMessage (index : Nat) (session_id : String) (chunks : List ContentChunk)
  | agentThought (text : String)
  | toolCallView (title : String) (status : ToolCallStatus)
  | toolCallUpdateNote (tool_call_id : String)
  | planView (plan : Plan)
  | commandsNote (count : Nat)
  | modeNote (current_mode_id : String)
  | unknownNote
deriving DecidableEq

/-- `ConversationPanelAcp::render_session_update`: dispatch one session
update to its element.  The `Unknown` constructor is consumed by the
source's catch-all `_` arm ("Unknown session update"). -/
def render_session_update (update : SessionUpdate) (index : Nat) :
    RenderedItem :=
  match update with
  | .UserMessageChunk chunk =>
    .userMessage index "default-session" [chunk.content]
  | .AgentMessageChunk chunk =>
    .agentMessage index "default-session" [chunk]
  | .AgentThoughtChunk chunk =>
    .agentThought (extract_text_from_content chunk.content)
  | .ToolCall tc => .toolCallView tc.title tc.status
  | .ToolCallUpdate u => .toolCallUpdateNote u.tool_call_id
  | .Plan p => .planView p
  | .AvailableCommandsUpdate u => .commandsNote u.available_commands.length
  | .CurrentModeUpdate u => .modeNote u.current_mode_id
  | .Unknown => .unknownNote

/-- The enumerated mapping inside `ConversationPanelAcp::render`, starting
at index `index`: each update yields exactly one element. -/
def renderFrom (index : Nat) : List SessionUpdate → List RenderedItem
  | [] => []
  | u :: rest => render_session_update u index :: renderFrom (index + 1) rest

/-- `ConversationPanelAcp::render`: the stored updates, enumerated from 0
and rendered one element per update, in order. -/
def renderPanel (session_updates : List SessionUpdate) : List RenderedItem :=
  renderFrom 0 session_updates

/-! ## Concrete scenario inputs -/

/-- The `ToolCall{id:"t1", status:Pending}` event payload of the ingestion
scenario. -/
def c1_tool_call : ToolCall :=
  { tool_call_id := "t1"
    title := "Read file"
    kind := ToolKind.Read
    status := ToolCallStatus.Pending
    content := [] }

/-- The `ToolCallUpdate{id:"t1", status:Completed}` event payload of the
ingestion scenario. -/
def c1_update : ToolCallUpdate :=
  { tool_call_id := "t1"
    status := some ToolCallStatus.Completed
    title := none
    content := none }

/-- A tool call carrying two diff payloads with equal totals (each a new
one-line file), inserted in the order `"a.rs"` then `"b.rs"`. -/
def c2_tool_call : ToolCall :=
  { tool_call_id := "t2"
    title := "Edit files"
    kind := ToolKind.Edit
    status := ToolCallStatus.Completed
    content := [ToolCallContent.Diff ⟨"a.rs", none, "x\n"⟩,
      ToolCallContent.Diff ⟨"b.rs", none, "y\n"⟩] }

/-- The stats of the `"a.rs"` diff payload of `c2_tool_call`. -/
def c2_stats_a : FileChangeStats :=
  FileChangeStats.from_diff "a.rs" none "x\n"

/-- The stats of the `"b.rs"` diff payload of `c2_tool_call`. -/
def c2_stats_b : FileChangeStats :=
  FileChangeStats.from_diff "b.rs" none "y\n"

/-- The same two bindings the aggregation of `c2_tool_call` produces, laid
out in the reverse of insertion order: an admissible value-iteration order
for that map, since `HashMap` iteration order is unspecified. -/
def c2_reordered : DiffSummaryData :=
  { files := [("b.rs", c2_stats_b), ("a.rs", c2_stats_a)] }

/-! ## Helper lemmas -/

/-- The line diff of identical token lists is all `Equal`. -/
theorem diffLines_self (l : List String) :
    diffLines l l = l.map Change.Equal := by
  induction l with
  | nil => simp [diffLines]
  | cons x xs ih => simp [diffLines, ih]

/-- A list of `Equal` changes contains no `Insert`. -/
theorem countP_isInsert_map_equal (l : List String) :
    (l.map Change.Equal).countP Change.isInsert = 0 := by
  induction l with
  | nil => rfl
  | cons x xs ih => simp [List.countP_cons, Change.isInsert, ih]

/-- A list of `Equal` changes contains no `Delete`. -/
theorem countP_isDelete_map_equal (l : List String) :
    (l.map Change.Equal).countP Change.isDelete = 0 := by
  induction l with
  | nil => rfl
  | cons x xs ih => simp [List.countP_cons, Change.isDelete, ih]

/-- A list of `Insert` changes is all inserts. -/
theorem countP_isInsert_map_insert (l : List String) :
    (l.map Change.Insert).countP Change.isInsert = l.length := by
  induction l with
  | nil => rfl
  | cons x xs ih => simp [List.countP_cons, Change.isInsert, ih]

/-- Stable insertion keeps exactly the inserted element and the old ones. -/
theorem insertByTotal_perm (x : FileChangeStats) (l : List FileChangeStats) :
    (insertByTotal x l).Perm (x :: l) := by
  induction l with
  | nil => simp [insertByTotal]
  | cons y ys ih =>
    by_cases h : y.total_changes ≤ x.total_changes
    · simp [insertByTotal, h]
    · simp only [insertByTotal, if_neg h]
      exact List.Perm.trans (List.Perm.cons y ih) (List.Perm.swap x y ys)

/-- Stable insertion preserves the descending-by-total invariant. -/
theorem insertByTotal_pairwise (x : FileChangeStats)
    (l : List FileChangeStats)
    (h : List.Pairwise (fun a b => b.total_changes ≤ a.total_changes) l) :
    List.Pairwise (fun a b => b.total_changes ≤ a.total_changes)
      (insertByTotal x l) := by
  induction l with
  | nil => simp [insertByTotal]
  | cons y ys ih =>
    rcases List.pairwise_cons.mp h with ⟨hy, hys⟩
    by_cases hyx : y.total_changes ≤ x.total_changes
    · simp only [insertByTotal, if_pos hyx]
      refine List.pairwise_cons.mpr ⟨?_, h⟩
      intro z hz
      rcases List.mem_cons.mp hz with rfl | hz
      · exact hyx
      · exact Nat.le_trans (hy z hz) hyx
    · simp only [insertByTotal, if_neg hyx]
      refine List.pairwise_cons.mpr ⟨?_, ih hys⟩
      intro z hz
      have hz2 : z ∈ x :: ys := (insertByTotal_perm x ys).mem_iff.mp hz
      rcases List.mem_cons.mp hz2 with rfl | hz3
      · exact Nat.le_of_lt (Nat.lt_of_not_le hyx)
      · exact hy z hz3

/-- `sortByTotalDesc` yields a descending-by-total list. -/
theorem sortByTotalDesc_pairwise (l : List FileChangeStats) :
    List.Pairwise (fun a b => b.total_changes ≤ a.total_changes)
      (sortByTotalDesc l) := by
  induction l with
  | nil => simp [sortByTotalDesc]
  | cons x xs ih => exact insertByTotal_pairwise x _ ih

/-- `sortByTotalDesc` permutes its input. -/
theorem sortByTotalDesc_perm (l : List FileChangeStats) :
    (sortByTotalDesc l).Perm l := by
  induction l with
  | nil => simp [sortByTotalDesc]
  | cons x xs ih =>
    exact List.Perm.trans (insertByTotal_perm x _) (List.Perm.cons x ih)

/-- Filtering one equal-total class commutes with stable insertion: the
inserted element lands in front of its own class and the others are
untouched. -/
theorem filter_insertByTotal (t : Nat) (x : FileChangeStats)
    (l : List FileChangeStats) :
    (insertByTotal x l).filter (fun s => s.total_changes == t) =
      if x.total_changes = t then
        x :: l.filter (fun s => s.total_changes == t)
      else l.filter (fun s => s.total_changes == t) := by
  induction l with
  | nil =>
    by_cases hx : x.total_changes = t <;>
      simp [insertByTotal, List.filter_cons, hx]
  | cons y ys ih =>
    simp only [insertByTotal]
    by_cases hyx : y.total_changes ≤ x.total_changes
    · rw [if_pos hyx]
      by_cases hx : x.total_changes = t <;>
        simp [List.filter_cons, hx]
    · rw [if_neg hyx]
      have hxy : x.total_changes < y.total_changes := Nat.lt_of_not_le hyx
      by_cases hy : y.total_changes = t
      · have hx : ¬ x.total_changes = t := by omega
        simp [List.filter_cons, hy, hx, ih]
      · by_cases hx : x.total_changes = t <;>
          simp [List.filter_cons, hy, hx, ih]

/-- Stability of the sort: each equal-total class comes out exactly as it
went in. -/
theorem sortByTotalDesc_filter (t : Nat) (l : List FileChangeStats) :
    (sortByTotalDesc l).filter (fun s => s.total_changes == t) =
      l.filter (fun s => s.total_changes == t) := by
  induction l with
  | nil => rfl
  | cons x xs ih =>
    by_cases hx : x.total_changes = t <;>
      simp [sortByTotalDesc, filter_insertByTotal, List.filter_cons, hx, ih]

/-- Each update renders to exactly one element. -/
theorem renderFrom_length (l : List SessionUpdate) :
    ∀ i, (renderFrom i l).length = l.length := by
  induction l with
  | nil => intro i; rfl
  | cons u rest ih => intro i; simp [renderFrom, ih]

/-- The element at position `i` is the rendering of the update at position
`i`, with its enumeration index. -/
theorem renderFrom_getElem (l : List SessionUpdate) :
    ∀ i j : Nat, (renderFrom j l)[i]? =
      (l[i]?).map (fun u => render_session_update u (j + i)) := by
  induction l with
  | nil => intro i j; simp [renderFrom]
  | cons u rest ih =>
    intro i j
    cases i with
    | zero => simp [renderFrom]
    | succ i =>
      simp only [renderFrom, List.getElem?_cons_succ, ih i (j + 1),
        Nat.succ_add, Nat.add_succ]

/-- Rendering a concatenation renders both halves, the second enumerated
past the first. -/
theorem renderFrom_append (l₁ l₂ : List SessionUpdate) :
    ∀ i, renderFrom i (l₁ ++ l₂) =
      renderFrom i l₁ ++ renderFrom (i + l₁.length) l₂ := by
  induction l₁ with
  | nil => intro i; simp [renderFrom]
  | cons u rest ih =>
    intro i
    simp only [List.cons_append, renderFrom, List.append_eq, ih (i + 1),
      List.length_cons]
    have h : i + 1 + rest.length = i + (rest.length + 1) := by omega
    rw [h]

/-! ## Claim theorems -/

/-- C1, counterexample.  The claim asserts that after ingesting
`[ToolCall{id:"t1", status:Pending}, ToolCallUpdate{id:"t1",
status:Completed}]` the stored tool call has status `Completed` and the
update appends no new transcript item.  On the code, `ConversationPanelAcp`
keeps the raw event list and renders one element per event: the stream
renders to two items, the tool-call item still shows `Pending` (no registry
applies the update), and the `ToolCallUpdate` renders its own note — so the
transcript does gain a second item and its length is not 1. -/
theorem claim_C1_counterexample :
    renderPanel [SessionUpdate.ToolCall c1_tool_call,
        SessionUpdate.ToolCallUpdate c1_update] =
      [RenderedItem.toolCallView "Read file" ToolCallStatus.Pending,
        RenderedItem.toolCallUpdateNote "t1"] ∧
    (renderPanel [SessionUpdate.ToolCall c1_tool_call,
        SessionUpdate.ToolCallUpdate c1_update]).length ≠ 1 := by
  exact ⟨rfl, by decide⟩

/-- C1, amended.  Ingesting `[ToolCall, ToolCallUpdate]` yields two rendered
transcript items: a tool-call item carrying the `ToolCall` event's own title
and status (the update is not applied to it), followed by a separate
"Tool Call Update" note carrying the update's id. -/
theorem claim_C1_amended (tc : ToolCall) (u : ToolCallUpdate) :
    renderPanel [SessionUpdate.ToolCall tc, SessionUpdate.ToolCallUpdate u] =
      [RenderedItem.toolCallView tc.title tc.status,
        RenderedItem.toolCallUpdateNote u.tool_call_id] := rfl

/-- C2, counterexample.  The claim asserts that equal-total entries retain
insertion order.  The source sorts the values of a `std HashMap`, whose
iteration order is arbitrary per map instance and unrelated to insertion
order, so the program gives no such guarantee: aggregating `c2_tool_call`
inserts `"a.rs"` before `"b.rs"` (equal totals), yet `c2_reordered` — the
same bindings in an iteration order the map may equally exhibit — sorts to
`[b, a]`, not the insertion order `[a, b]`. -/
theorem claim_C2_counterexample :
    (DiffSummaryData.from_tool_calls [c2_tool_call]).files =
      [("a.rs", c2_stats_a), ("b.rs", c2_stats_b)] ∧
    c2_reordered.files.Perm
      (DiffSummaryData.from_tool_calls [c2_tool_call]).files ∧
    c2_stats_a.total_changes = c2_stats_b.total_changes ∧
    c2_reordered.sorted_files = [c2_stats_b, c2_stats_a] ∧
    c2_reordered.sorted_files ≠ [c2_stats_a, c2_stats_b] := by decide

/-- C2, amended.  For every `DiffSummaryData` — its `files` list read as the
map's contents in whatever value-iteration order the map instance exhibits —
`sorted_files` returns the per-file stats ordered by
`additions + deletions` descending (pairwise), as a permutation of the
stored values, and the tie order is the stable one: every equal-total class
comes out exactly in the iteration order of the instance, which is fixed
for a given map, so repeated calls on the same data agree — but it is not
necessarily insertion order. -/
theorem claim_C2 (d : DiffSummaryData) :
    List.Pairwise (fun a b => b.total_changes ≤ a.total_changes)
      d.sorted_files ∧
    d.sorted_files.Perm (d.files.map (fun p => p.2)) ∧
    ∀ t : Nat,
      d.sorted_files.filter (fun s => s.total_changes == t) =
        (d.files.map (fun p => p.2)).filter
          (fun s => s.total_changes == t) := by
  exact ⟨sortByTotalDesc_pairwise _, sortByTotalDesc_perm _,
    fun t => sortByTotalDesc_filter t _⟩

/-- C3.  With `old_text = None` the stats are `deletions = 0`,
`is_new_file = true` and `additions = rust_line_count new_text`, the number
of newline-delimited segments; a trailing newline adds no extra empty
segment (`"line1\nline2\n"` and `"line1\nline2"` both count 2); in
particular the `old=None, new="line1\nline2\n"` scenario gives
`additions = 2, deletions = 0, is_new_file = true`. -/
theorem claim_C3 :
    (∀ path new_text : String,
        (FileChangeStats.from_diff path none new_text).additions =
          rust_line_count new_text ∧
        (FileChangeStats.from_diff path none new_text).deletions = 0 ∧
        (FileChangeStats.from_diff path none new_text).is_new_file = true) ∧
    rust_line_count "line1\nline2\n" = 2 ∧
    rust_line_count "line1\nline2" = 2 ∧
    (FileChangeStats.from_diff "f" none "line1\nline2\n").additions = 2 ∧
    (FileChangeStats.from_diff "f" none "line1\nline2\n").deletions = 0 ∧
    (FileChangeStats.from_diff "f" none "line1\nline2\n").is_new_file =
      true := by
  exact ⟨fun path new_text => ⟨rfl, rfl, rfl⟩, by decide, by decide,
    by decide, by decide, by decide⟩

/-- C4.  Diffing a text against itself yields zero additions and zero
deletions: the line diff of identical inputs is all `Equal` tags. -/
theorem claim_C4 (path s : String) :
    (FileChangeStats.from_diff path (some s) s).additions = 0 ∧
    (FileChangeStats.from_diff path (some s) s).deletions = 0 := by
  constructor <;>
    simp [FileChangeStats.from_diff, diffLines_self,
      countP_isInsert_map_equal, countP_isDelete_map_equal,
      Change.isInsert, Change.isDelete]

/-- C5.  `from_tool_calls` is a pure function of the tool-call list — the
embedding carries no hidden state, randomness or caching — so aggregating
the same list twice yields identical `DiffSummaryData`. -/
theorem claim_C5 (tool_calls : List ToolCall) :
    DiffSummaryData.from_tool_calls tool_calls =
      DiffSummaryData.from_tool_calls tool_calls := rfl

/-- C6.  Chunks are never coalesced: the panel renders exactly one element
per event, the element at position `i` is the rendering of the event at
position `i`, and the `[UserMessageChunk, AgentMessageChunk,
UserMessageChunk]` stream renders to exactly those three items in arrival
order. -/
theorem claim_C6 :
    (∀ updates : List SessionUpdate,
        (renderPanel updates).length = updates.length) ∧
    (∀ (updates : List SessionUpdate) (i : Nat),
        (renderPanel updates)[i]? =
          (updates[i]?).map (fun u => render_session_update u i)) ∧
    (∀ c₁ c₂ c₃ : ContentChunk,
        renderPanel [SessionUpdate.UserMessageChunk c₁,
            SessionUpdate.AgentMessageChunk c₂,
            SessionUpdate.UserMessageChunk c₃] =
          [RenderedItem.userMessage 0 "default-session" [c₁.content],
            RenderedItem.agentMessage 1 "default-session" [c₂],
            RenderedItem.userMessage 2 "default-session" [c₃.content]]) := by
  refine ⟨fun updates => renderFrom_length updates 0,
    fun updates i => ?_, fun c₁ c₂ c₃ => rfl⟩
  simpa using renderFrom_getElem updates i 0

/-- C7.  An event of an unrecognized kind is rendered as the opaque
"Unknown session update" placeholder by the catch-all arm and never aborts
processing: every event before it and after it is still rendered normally,
the suffix at its shifted enumeration indices. -/
theorem claim_C7 (pre post : List SessionUpdate) :
    renderPanel (pre ++ SessionUpdate.Unknown :: post) =
      renderFrom 0 pre ++ RenderedItem.unknownNote ::
        renderFrom (pre.length + 1) post := by
  show renderFrom 0 (pre ++ SessionUpdate.Unknown :: post) = _
  rw [renderFrom_append pre (SessionUpdate.Unknown :: post) 0]
  simp [renderFrom, render_session_update, Nat.zero_add]

/-- C8.  Kind and status strings are mapped case-insensitively (two strings
with the same lowercasing map to the same kind and the same status;
`"in_progress"` and `"InProgress"` give the same status), every string whose
lowercasing is none of the nine kind names maps to `Other`, and every
string whose lowercasing is none of the five status names maps to
`Pending` — the mapping never fails. -/
theorem claim_C8 : ∀ s t : String,
    (to_lowercase s = to_lowercase t →
      map_tool_call_kind (some s) = map_tool_call_kind (some t) ∧
      map_tool_call_status (some s) = map_tool_call_status (some t)) ∧
    map_tool_call_status (some "in_progress") =
      map_tool_call_status (some "InProgress") ∧
    (to_lowercase s ∉ ["read", "edit", "delete", "move", "search",
        "execute", "think", "fetch", "switch_mode"] →
      map_tool_call_kind (some s) = ToolKind.Other) ∧
    (to_lowercase s ∉ ["pending", "in_progress", "inprogress",
        "completed", "failed"] →
      map_tool_call_status (some s) = ToolCallStatus.Pending) := by
  intro s t
  refine ⟨fun h => ?_, by decide, fun h => ?_, fun h => ?_⟩
  · constructor
    · show tool_kind_of_lower (to_lowercase s) =
        tool_kind_of_lower (to_lowercase t)
      rw [h]
    · show tool_status_of_lower (to_lowercase s) =
        tool_status_of_lower (to_lowercase t)
      rw [h]
  · simp only [List.mem_cons, List.not_mem_nil, not_or, or_false] at h
    obtain ⟨h1, h2, h3, h4, h5, h6, h7, h8, h9⟩ := h
    simp [map_tool_call_kind, tool_kind_of_lower,
      h1, h2, h3, h4, h5, h6, h7, h8, h9]
  · simp only [List.mem_cons, List.not_mem_nil, not_or, or_false] at h
    obtain ⟨h1, h2, h3, h4, h5⟩ := h
    simp [map_tool_call_status, tool_status_of_lower, h1, h2, h3, h4, h5]

/-- C8 witness: the case-insensitivity hypothesis discharged at
`"READ"`/`"read"`, and the fallback hypotheses at the unrecognized strings
`"compile"` and `"cancelled"`. -/
theorem claim_C8_witness :
    (map_tool_call_kind (some "READ") = map_tool_call_kind (some "read") ∧
      map_tool_call_status (some "READ") =
        map_tool_call_status (some "read")) ∧
    map_tool_call_kind (some "compile") = ToolKind.Other ∧
    map_tool_call_status (some "cancelled") = ToolCallStatus.Pending := by
  exact ⟨(claim_C8 "READ" "read").1 (by decide),
    (claim_C8 "compile" "compile").2.2.1 (by decide),
    (claim_C8 "cancelled" "cancelled").2.2.2 (by decide)⟩

/-- C9.  A tool-call update changes only the supplied fields:
`update_status` sets the status and leaves id, title, kind, content and the
open flag unchanged; `set_content` replaces the content list wholesale (a
full overwrite, not an append) and leaves id, title, kind, status and the
open flag unchanged. -/
theorem claim_C9 (v : ToolCallItemView) (st : ToolCallStatus)
    (cs : List ToolCallContent) :
    ((v.update_status st).tool_call.status = st ∧
      (v.update_status st).tool_call.tool_call_id =
        v.tool_call.tool_call_id ∧
      (v.update_status st).tool_call.title = v.tool_call.title ∧
      (v.update_status st).tool_call.kind = v.tool_call.kind ∧
      (v.update_status st).tool_call.content = v.tool_call.content ∧
      (v.update_status st).open_state = v.open_state) ∧
    ((v.set_content cs).tool_call.content = cs ∧
      (v.set_content cs).tool_call.tool_call_id =
        v.tool_call.tool_call_id ∧
      (v.set_content cs).tool_call.title = v.tool_call.title ∧
      (v.set_content cs).tool_call.kind = v.tool_call.kind ∧
      (v.set_content cs).tool_call.status = v.tool_call.status ∧
      (v.set_content cs).open_state = v.open_state) := by
  exact ⟨⟨rfl, rfl, rfl, rfl, rfl, rfl⟩, ⟨rfl, rfl, rfl, rfl, rfl, rfl⟩⟩

/-- C10.  `is_new_file` is true exactly when `old_text` is `None`; an empty
old text `Some("")` gives `is_new_file = false` even though the diff against
the empty line list makes every line of `new_text` an insertion. -/
theorem claim_C10 :
    (∀ (path new_text : String) (old_text : Option String),
        ((FileChangeStats.from_diff path old_text new_text).is_new_file =
            true ↔ old_text = none)) ∧
    (∀ path new_text : String,
        (FileChangeStats.from_diff path (some "") new_text).is_new_file =
          false ∧
        (FileChangeStats.from_diff path (some "") new_text).additions =
          rust_line_count new_text) := by
  constructor
  · intro path new_text old_text
    cases old_text with
    | none => simp [FileChangeStats.from_diff]
    | some old => simp [FileChangeStats.from_diff]
  · intro path new_text
    refine ⟨rfl, ?_⟩
    have hempty : linesKeepEnds "" = [] := rfl
    simp only [FileChangeStats.from_diff, hempty, diffLines]
    exact countP_isInsert_map_insert _

end AgentX
